import Mathlib

/-!
Verification of the dataset/indexing core of `lit_nlp/api/dataset.py`.

The Python classes `Dataset`, `IndexedDataset` and `NoneDataset` are embedded
shallowly: Python lists become Lean lists, Python dicts become association
lists with Python-dict lookup/update/comprehension semantics, Python `None`
becomes `Option.none`, and the truthiness-based `x or y` fallback used by
`Dataset.__init__` is modelled by explicit helpers (`None`, the empty list,
the empty dict and the empty string are all falsy in Python).
`assert` failures are modelled by returning `Option.none` from the
operation that would raise.
-/

set_option maxHeartbeats 1000000

namespace LitDataset

/-- Python `arg or dflt` for an optional-list argument: `None` and the empty
list are falsy, so both fall back to `dflt`. Also models the dict case,
where `β` is a key-value pair type. -/
def pyOrList {β : Type} (arg : Option (List β)) (dflt : List β) : List β :=
  match arg with
  | none => dflt
  | some xs => if xs.isEmpty then dflt else xs

/-- Python `arg or dflt` where `arg` is an `Optional[str]` and the default is
itself optional: `None` and the empty string are falsy. -/
def pyOrStr (arg : Option String) (dflt : Option String) : Option String :=
  match arg with
  | none => dflt
  | some s => if s = "" then dflt else some s

/-- Python `a or b` collapsing an optional string to a string; used for
`self._description or inspect.getdoc(self) or ''`, where `b` stands for
`inspect.getdoc(self) or ''`. -/
def pyStrOr (a : Option String) (b : String) : String :=
  match a with
  | some s => if s = "" then b else s
  | none => b

/-- The class docstring of `Dataset`: `inspect.getdoc` for any instance of
the `Dataset` class itself returns this (cleaned) string. Derived datasets
produced by `slice`/`sample`/`shuffle` are instances of `Dataset`, so their
docstring is this constant. -/
def datasetDocstring : String :=
  "Base class for LIT datasets.\n\nWe recommend pre-loading the data in the constructor, but you can also stream\non the fly in Dataset.examples() if desired."

/-- The state of a Python `Dataset` object after `__init__`:
`_spec` (a dict, modelled as an association list over an opaque descriptor
type `δ`), `_examples`, `_description`, the `inspect.getdoc(self)` string of
its class (`""` standing for a missing docstring), `can_load_by_path`, and
`_base`. The base reference makes the type recursive. -/
inductive Dataset (α δ : Type) : Type where
  | mk : (spec : List (String × δ)) → (examples : List α) →
      (descr : Option String) → (docstring : String) →
      (canLoadByPath : Bool) → (base : Option (Dataset α δ)) → Dataset α δ

variable {α δ : Type}

/-- `Dataset.spec()`: returns `self._spec`. -/
def Dataset.spec : Dataset α δ → List (String × δ)
  | .mk s _ _ _ _ _ => s

/-- The `Dataset.examples` property: returns `self._examples`. -/
def Dataset.examples : Dataset α δ → List α
  | .mk _ e _ _ _ _ => e

/-- The stored `_description` field. -/
def Dataset.descr : Dataset α δ → Option String
  | .mk _ _ d _ _ _ => d

/-- `inspect.getdoc(self) or ''` for this object. -/
def Dataset.docstring : Dataset α δ → String
  | .mk _ _ _ ds _ _ => ds

/-- The `can_load_by_path` attribute. -/
def Dataset.canLoadByPath : Dataset α δ → Bool
  | .mk _ _ _ _ c _ => c

/-- The `_base` field. -/
def Dataset.base : Dataset α δ → Option (Dataset α δ)
  | .mk _ _ _ _ _ b => b

/-- `Dataset.description()`: `self._description or inspect.getdoc(self) or ''`. -/
def Dataset.description (d : Dataset α δ) : String :=
  pyStrOr d.descr d.docstring

/-- `Dataset.__init__(spec, examples, description, base)`: if `base` is given,
pre-populate `_examples`, `_spec`, `_description` (via `base.description()`,
which applies the docstring fallback) and `can_load_by_path` from it;
otherwise the class-level defaults `{}`, `[]`, `None`, `False` apply. Then
each field is overridden by its argument exactly when the argument is truthy
(`examples or self._examples`, etc.). The constructed object is an instance
of class `Dataset`, so its docstring is `datasetDocstring`. -/
def Dataset.init (spec : Option (List (String × δ))) (examples : Option (List α))
    (description : Option String) (base : Option (Dataset α δ)) : Dataset α δ :=
  match base with
  | some b =>
      Dataset.mk (pyOrList spec b.spec) (pyOrList examples b.examples)
        (pyOrStr description (some b.description)) datasetDocstring
        b.canLoadByPath (some b)
  | none =>
      Dataset.mk (pyOrList spec []) (pyOrList examples [])
        (pyOrStr description none) datasetDocstring false none

/-- `Dataset.slice[a:b]` for integer bounds `0 ≤ a, b ≤ len(examples)`:
`Dataset(examples=self.examples[a:b], base=self)`. Python's `xs[a:b]` on
such bounds is `(xs.drop a).take (b - a)`. -/
def Dataset.sliceAB (d : Dataset α δ) (a b : Nat) : Dataset α δ :=
  Dataset.init none (some ((d.examples.drop a).take (b - a))) none (some d)

/-- `Dataset.sample(n, seed)`. The stdlib collaborator
`random.Random(seed).sample(population, k)` is abstracted as the argument
`rngSample : seed → population → k → chosen`; theorems assume only its
documented contract (a `k`-element selection without replacement). The code
branches on `n < len(self.examples)` and otherwise copies the full example
list, then builds `Dataset(examples=examples, base=self)`. -/
def Dataset.sample (rngSample : Nat → List α → Nat → List α)
    (d : Dataset α δ) (n : Nat) (seed : Nat) : Dataset α δ :=
  let examples := if n < d.examples.length then rngSample seed d.examples n
    else d.examples
  Dataset.init none (some examples) none (some d)

/-- `Dataset.shuffle(seed)`: `self.sample(n=len(self), seed=seed)`, where
`len(self)` is `len(self.examples)`. -/
def Dataset.shuffle (rngSample : Nat → List α → Nat → List α)
    (d : Dataset α δ) (seed : Nat) : Dataset α δ :=
  d.sample rngSample d.examples.length seed

/-- A Python `IndexedInput`: `{'data': example, 'id': id_fn(example), 'meta': {}}`.
The `meta` dict is always created empty by `index_inputs`. -/
structure IndexedInput (α ι : Type) where
  data : α
  id : ι
  meta : List (String × String)
deriving DecidableEq

/-- `IndexedDataset.index_inputs(examples)`: one `IndexedInput` per example,
with id `self.id_fn(example)` and empty `meta`. -/
def index_inputs {ι : Type} (id_fn : α → ι) (examples : List α) :
    List (IndexedInput α ι) :=
  examples.map (fun ex => IndexedInput.mk ex (id_fn ex) [])

/-- The state of an `IndexedDataset` after a successful `__init__`: the
`Dataset` state built by `super().__init__`, the stored `id_fn`, and
`_indexed_examples = index_inputs(self._examples)`. The `_index` dict is
derived from `_indexed_examples` (see `IndexedDataset.indexLookup`). -/
structure IndexedDataset (α δ ι : Type) where
  toDataset : Dataset α δ
  id_fn : α → ι
  indexed_examples : List (IndexedInput α ι)

/-- `IndexedDataset.__init__(spec, examples, description, base, id_fn)`:
runs `Dataset.__init__`, then `assert id_fn is not None` — modelled by
returning `none` when `id_fn` is `None` — and builds the indexed examples. -/
def IndexedDataset.init {ι : Type} (spec : Option (List (String × δ)))
    (examples : Option (List α)) (description : Option String)
    (base : Option (Dataset α δ)) (id_fn : Option (α → ι)) :
    Option (IndexedDataset α δ ι) :=
  let d := Dataset.init spec examples description base
  match id_fn with
  | none => none
  | some f => some (IndexedDataset.mk d f (index_inputs f d.examples))

/-- Lookup in the `_index` dict `{ex['id']: ex for ex in self._indexed_examples}`:
a Python dict comprehension keeps, for each key, the LAST entry producing it,
so lookup finds the last indexed example whose id matches. -/
def IndexedDataset.indexLookup {ι : Type} [DecidableEq ι]
    (ds : IndexedDataset α δ ι) (k : ι) : Option (IndexedInput α ι) :=
  ds.indexed_examples.reverse.find? (fun ex => ex.id = k)

/-- `len(self._index)` for the same dict: the number of distinct ids among
the indexed examples. -/
def IndexedDataset.indexSize {ι : Type} [DecidableEq ι]
    (ds : IndexedDataset α δ ι) : Nat :=
  ((ds.indexed_examples.map IndexedInput.id).dedup).length

/-- A field descriptor of a model spec: only the `required` flag is inspected
by this core; the rest of the descriptor is opaque (`payload`), and
descriptors are compared for (in)equality as whole values. -/
structure FieldDescr (ρ : Type) where
  required : Bool
  payload : ρ
deriving DecidableEq

/-- A model-like producer as seen by `NoneDataset`: `model.spec().input` is a
dict from field name to descriptor, modelled as an association list with
distinct keys (a Python dict invariant). -/
structure ModelSpec (ρ : Type) where
  input : List (String × FieldDescr ρ)

variable {ρ : Type}

/-- Python dict lookup on an association list: the first binding of the key
(our constructions keep keys distinct, matching Python dicts). -/
def alookup {β : Type} (k : String) : List (String × β) → Option β
  | [] => none
  | kv :: rest => if kv.1 = k then some kv.2 else alookup k rest

/-- Python `d.update(u)` on dicts-as-association-lists: keys already in `d`
keep their position but take `u`'s value; keys only in `u` are appended in
`u`'s order. -/
def dictUpdate {β : Type} (d u : List (String × β)) : List (String × β) :=
  d.map (fun kv =>
    match alookup kv.1 u with
    | some v => (kv.1, v)
    | none => kv) ++
  u.filter (fun kv => (alookup kv.1 d).isNone)

/-- `{k: v for (k, v) in model.spec().input.items() if v.required}`. -/
def requiredInputs (input : List (String × FieldDescr ρ)) :
    List (String × FieldDescr ρ) :=
  input.filter (fun kv => kv.2.required)

/-- `NoneDataset.has_conflicting_keys(spec0, spec1)`: true iff some key of
`spec0` is present in `spec1` with a different value. -/
def has_conflicting_keys [DecidableEq ρ]
    (spec0 spec1 : List (String × FieldDescr ρ)) : Bool :=
  spec0.any (fun kv =>
    match alookup kv.1 spec1 with
    | some w => decide (w ≠ kv.2)
    | none => false)

/-- One iteration of the loop in `NoneDataset.spec`: filter the model's
required inputs, `assert not has_conflicting_keys(combined, req_inputs)`
(modelled as `none` on failure), then `combined.update(req_inputs)`. -/
def specStep [DecidableEq ρ] (acc : Option (List (String × FieldDescr ρ)))
    (m : ModelSpec ρ) : Option (List (String × FieldDescr ρ)) :=
  match acc with
  | none => none
  | some combined =>
      let req_inputs := requiredInputs m.input
      if has_conflicting_keys combined req_inputs then none
      else some (dictUpdate combined req_inputs)

/-- `NoneDataset.spec()`: fold the per-model step over `self._models.items()`
(insertion order), starting from the empty `combined_spec`; an assertion
failure anywhere yields `none`. -/
def NoneDataset.spec [DecidableEq ρ] (models : List (String × ModelSpec ρ)) :
    Option (List (String × FieldDescr ρ)) :=
  models.foldl (fun acc nm => specStep acc nm.2) (some [])

/-! ### Concrete instances used by counterexamples and witnesses -/

/-- A one-example dataset over `Nat` records and `String` spec descriptors. -/
def dOne : Dataset Nat String := Dataset.init none (some [10]) none none

/-- A two-example dataset. -/
def dTwo : Dataset Nat String := Dataset.init none (some [10, 20]) none none

/-- A concrete stand-in for `random.Random(seed).sample`: it satisfies the
documented contract used by the theorems (`len(sample(xs, k)) == k` for
`k ≤ len(xs)`; in particular `sample(xs, 0) == []`, which is also what the
Python implementation returns for `k == 0`). -/
def takeSampler : Nat → List Nat → Nat → List Nat := fun _ xs n => xs.take n

/-! ### Helper lemmas about the Python truthiness fallbacks -/

theorem pyOrList_none {β : Type} (dflt : List β) : pyOrList none dflt = dflt := rfl

theorem pyOrList_some_nil {β : Type} (dflt : List β) :
    pyOrList (some ([] : List β)) dflt = dflt := rfl

theorem pyOrList_some_of_ne_nil {β : Type} {xs : List β} (dflt : List β)
    (h : xs ≠ []) : pyOrList (some xs) dflt = xs := by
  simp [pyOrList, List.isEmpty_iff, h]

theorem pyOrList_some_self {β : Type} (xs : List β) : pyOrList (some xs) xs = xs := by
  cases xs <;> simp [pyOrList]

theorem examples_init_base (sp : Option (List (String × δ)))
    (ex : Option (List α)) (de : Option String) (b : Dataset α δ) :
    (Dataset.init sp ex de (some b)).examples = pyOrList ex b.examples := rfl

theorem spec_init_base (sp : Option (List (String × δ)))
    (ex : Option (List α)) (de : Option String) (b : Dataset α δ) :
    (Dataset.init sp ex de (some b)).spec = pyOrList sp b.spec := rfl

theorem descr_init_base (sp : Option (List (String × δ)))
    (ex : Option (List α)) (de : Option String) (b : Dataset α δ) :
    (Dataset.init sp ex de (some b)).descr = pyOrStr de (some b.description) := rfl

theorem base_init_base (sp : Option (List (String × δ)))
    (ex : Option (List α)) (de : Option String) (b : Dataset α δ) :
    (Dataset.init sp ex de (some b)).base = some b := rfl

/-- A dataset whose class has a (non-empty) docstring never reports the empty
description: `description()` falls back to the docstring when `_description`
is falsy. -/
theorem description_ne_empty {d : Dataset α δ} (h : d.docstring ≠ "") :
    d.description ≠ "" := by
  unfold Dataset.description pyStrOr
  cases hd : d.descr with
  | none => exact h
  | some s =>
      by_cases hs : s = "" <;> simp [hs, h]

/-! ### C1 — slice correctness -/

/-- C1, counterexample: the claim `d.slice[a:b].records == d.records[a:b]`
fails at the valid bounds `a = b = 0` on a one-example dataset, because
`Dataset.__init__` treats the empty slice as falsy (`examples or
self._examples`) and falls back to the base records. -/
theorem slice_empty_cex :
    (dOne.sliceAB 0 0).examples ≠ (dOne.examples.drop 0).take (0 - 0) := by
  decide

/-- C1, amended: for valid bounds `a ≤ b ≤ len(d.records)`, whenever the
selected subsequence is non-empty (`a < b`) — or `d` itself is empty — the
derived dataset `d.slice[a:b]` has records exactly `d.records[a:b]`, and its
base is `d` itself. (For `a = b` on a non-empty dataset the records fall back
to all of `d`; see `empty_override_falls_back`.) -/
theorem slice_correct (d : Dataset α δ) (a b : Nat) (hab : a ≤ b)
    (hb : b ≤ d.examples.length) (hne : a < b ∨ d.examples = []) :
    (d.sliceAB a b).examples = (d.examples.drop a).take (b - a) ∧
    (d.sliceAB a b).base = some d := by
  refine ⟨?_, rfl⟩
  rw [Dataset.sliceAB, examples_init_base]
  rcases hne with hlt | hnil
  · apply pyOrList_some_of_ne_nil
    have hlen : ((d.examples.drop a).take (b - a)).length = b - a := by
      simp [List.length_take, List.length_drop]
      omega
    intro hcontra
    rw [hcontra] at hlen
    simp at hlen
    omega
  · simp [hnil, pyOrList_some_nil]

/-- Witness for `slice_correct` at `d = dTwo`, `a = 0`, `b = 1`. -/
theorem slice_correct_witness :
    (dTwo.sliceAB 0 1).examples = (dTwo.examples.drop 0).take (1 - 0) ∧
    (dTwo.sliceAB 0 1).base = some dTwo :=
  slice_correct dTwo 0 1 (by decide) (by decide) (Or.inl (by decide))

/-! ### C9 — empty override falls back to base -/

/-- C9: supplying an explicitly empty records list to a derivation does not
produce an empty dataset: `examples or self._examples` is false for `[]`, so
the derived dataset keeps all of the base records. In particular a slice
selecting zero records (`a = b`) returns the full dataset. -/
theorem empty_override_falls_back (d : Dataset α δ) (h : d.examples ≠ [])
    (a : Nat) :
    (Dataset.init none (some ([] : List α)) none (some d)).examples = d.examples ∧
    (d.sliceAB a a).examples = d.examples ∧
    (d.sliceAB a a).examples ≠ [] := by
  have h1 : (Dataset.init none (some ([] : List α)) none (some d)).examples
      = d.examples := by
    rw [examples_init_base, pyOrList_some_nil]
  have h2 : (d.sliceAB a a).examples = d.examples := by
    rw [Dataset.sliceAB, examples_init_base, Nat.sub_self, List.take_zero,
      pyOrList_some_nil]
  exact ⟨h1, h2, h2 ▸ h⟩

/-- Witness for `empty_override_falls_back` at `d = dTwo`, `a = 1`. -/
theorem empty_override_falls_back_witness :
    (Dataset.init none (some ([] : List Nat)) none (some dTwo)).examples
      = dTwo.examples ∧
    (dTwo.sliceAB 1 1).examples = dTwo.examples ∧
    (dTwo.sliceAB 1 1).examples ≠ [] :=
  empty_override_falls_back dTwo (by decide) 1

/-! ### C10 — oversized and exact-size sample preserves order -/

/-- C10: for `n ≥ len(d.records)` (including equality) the code takes the
`else` branch of `sample`, copying the full example list in original order,
so the derived records equal `d.records` element for element; `shuffle`, which
calls `sample(n=len(self))`, therefore never reorders. Quantifying over
`rngSample` covers every seed and every behaviour of `random.Random`. -/
theorem oversized_sample_preserves_order
    (rngSample : Nat → List α → Nat → List α) (d : Dataset α δ) (n seed : Nat)
    (h : d.examples.length ≤ n) :
    (d.sample rngSample n seed).examples = d.examples ∧
    (d.shuffle rngSample seed).examples = d.examples := by
  have key : ∀ m : Nat, d.examples.length ≤ m →
      (d.sample rngSample m seed).examples = d.examples := by
    intro m hm
    rw [Dataset.sample]
    simp only [Nat.not_lt.mpr hm, if_false]
    rw [examples_init_base, pyOrList_some_self]
  exact ⟨key n h, key d.examples.length (Nat.le_refl _)⟩

/-- Witness for `oversized_sample_preserves_order` at `d = dTwo`, `n = 5`. -/
theorem oversized_sample_preserves_order_witness :
    (dTwo.sample takeSampler 5 42).examples = dTwo.examples ∧
    (dTwo.shuffle takeSampler 42).examples = dTwo.examples :=
  oversized_sample_preserves_order takeSampler dTwo 5 42 (by decide)

/-! ### C3 — shuffle is a permutation -/

/-- C3: for every dataset and every seed (any behaviour of the seeded
generator), the records of `d.shuffle(seed)` are a permutation of
`d.records` — equivalently, sorting both record lists yields equal lists.
The original dataset is not touched: `shuffle` only constructs a new
`Dataset` with `base = d`, and in this pure embedding `d` is immutable. -/
theorem shuffle_is_permutation (rngSample : Nat → List α → Nat → List α)
    (d : Dataset α δ) (seed : Nat) :
    ((d.shuffle rngSample seed).examples).Perm d.examples := by
  have h : (d.shuffle rngSample seed).examples = d.examples := by
    rw [Dataset.shuffle, Dataset.sample]
    simp only [Nat.lt_irrefl, if_false]
    rw [examples_init_base, pyOrList_some_self]
  rw [h]

/-! ### C8 — IndexedDataset requires an id_fn -/

/-- C8: constructing an `IndexedDataset` with `id_fn` omitted (i.e. `None`)
trips the `assert id_fn is not None` and produces no object, for every
combination of the other constructor arguments; supplying any `id_fn`
makes construction succeed. -/
theorem indexed_requires_id_fn {ι : Type} (sp : Option (List (String × δ)))
    (ex : Option (List α)) (de : Option String) (b : Option (Dataset α δ)) :
    IndexedDataset.init sp ex de b (none : Option (α → ι)) = none ∧
    ∀ f : α → ι, (IndexedDataset.init sp ex de b (some f)).isSome := by
  exact ⟨rfl, fun f => rfl⟩

/-! ### C2 — sample bounds -/

/-- C2, counterexample: at `n = 0` on a non-empty dataset the claim
`len(d.sample(n).records) == min(n, len(d.records))` fails: the sampler
returns the empty list (as `random.Random(seed).sample(xs, 0)` does), which
is falsy, so `Dataset.__init__` falls back to the base records and the
result has `len(d.records)` records instead of `0`. -/
theorem sample_zero_cex :
    takeSampler 42 dOne.examples 0 = [] ∧
    (dOne.sample takeSampler 0 42).examples.length ≠
      min 0 dOne.examples.length := by
  decide

/-- C2, amended: for every `n ≥ 1` and every seed (any sampler satisfying
the documented `random.sample` contract `len(sample(xs, k)) == k` for
`k ≤ len(xs)`), `len(d.sample(n, seed).records) == min(n, len(d.records))`;
and when `n ≥ len(d.records)` the multiset of sampled records equals the
multiset of `d.records`. At `n = 0` on a non-empty dataset the length is
`len(d.records)` instead (see `sample_zero_cex`). -/
theorem sample_bounds (rngSample : Nat → List α → Nat → List α)
    (hlen : ∀ seed xs n, n ≤ xs.length → (rngSample seed xs n).length = n)
    (d : Dataset α δ) (n seed : Nat) (hn : 1 ≤ n) :
    (d.sample rngSample n seed).examples.length = min n d.examples.length ∧
    (d.examples.length ≤ n →
      Multiset.ofList (d.sample rngSample n seed).examples
        = Multiset.ofList d.examples) := by
  by_cases hlt : n < d.examples.length
  · have hlen1 : (rngSample seed d.examples n).length = n :=
      hlen seed d.examples n (Nat.le_of_lt hlt)
    have hne : rngSample seed d.examples n ≠ [] := by
      intro hcontra
      rw [hcontra] at hlen1
      simp at hlen1
      omega
    have hex : (d.sample rngSample n seed).examples = rngSample seed d.examples n := by
      rw [Dataset.sample]
      simp only [hlt, if_true]
      rw [examples_init_base, pyOrList_some_of_ne_nil _ hne]
    constructor
    · rw [hex, hlen1, Nat.min_eq_left (Nat.le_of_lt hlt)]
    · intro hge
      omega
  · have hex : (d.sample rngSample n seed).examples = d.examples := by
      rw [Dataset.sample]
      simp only [hlt, if_false]
      rw [examples_init_base, pyOrList_some_self]
    constructor
    · rw [hex, Nat.min_eq_right (Nat.le_of_not_lt hlt)]
    · intro _
      rw [hex]

/-- Witness for `sample_bounds` at `d = dTwo`, `n = 1`, seed `42`, with the
concrete contract-satisfying sampler `takeSampler`. -/
theorem sample_bounds_witness :
    (dTwo.sample takeSampler 1 42).examples.length = min 1 dTwo.examples.length ∧
    (dTwo.examples.length ≤ 1 →
      Multiset.ofList (dTwo.sample takeSampler 1 42).examples
        = Multiset.ofList dTwo.examples) :=
  sample_bounds takeSampler
    (fun seed xs n h => by simp [takeSampler]; omega)
    dTwo 1 42 (by decide)

/-! ### C7 — derivation preserves unspecified fields -/

/-- C7: deriving with only `records` supplied (spec and description left as
`None`) keeps the base's schema and description. The hypothesis that the
base's docstring is non-empty reflects `inspect.getdoc`: every instance of
`Dataset` or of a subclass inherits the non-empty `Dataset` class docstring,
so `description()` never returns the empty (falsy) string. -/
theorem derivation_preserves_fields (d : Dataset α δ) (recs : List α)
    (h : d.docstring ≠ "") :
    (Dataset.init none (some recs) none (some d)).spec = d.spec ∧
    (Dataset.init none (some recs) none (some d)).description = d.description := by
  constructor
  · rw [spec_init_base, pyOrList_none]
  · have hne : d.description ≠ "" := description_ne_empty h
    show pyStrOr (Dataset.init none (some recs) none (some d)).descr _ = _
    rw [descr_init_base]
    show pyStrOr (pyOrStr none (some d.description)) datasetDocstring = _
    simp [pyOrStr, pyStrOr, hne]

/-- Witness for `derivation_preserves_fields` at `d = dTwo`. -/
theorem derivation_preserves_fields_witness :
    (Dataset.init none (some [5]) none (some dTwo)).spec = dTwo.spec ∧
    (Dataset.init none (some [5]) none (some dTwo)).description
      = dTwo.description :=
  derivation_preserves_fields dTwo [5] (by decide)

/-! ### C4 — index construction -/

theorem pyOrList_some_over_nil {β : Type} (xs : List β) :
    pyOrList (some xs) [] = xs := by
  cases xs <;> simp [pyOrList]

/-- `find?` over a reversed list returns the element at the LAST position
satisfying the predicate. -/
theorem find_last_of_reverse {β : Type} (l : List β) (p : β → Bool) (j : Nat)
    (hj : j < l.length) (hpj : p l[j] = true)
    (hlast : ∀ k : Nat, (hk : k < l.length) → j < k → p l[k] = false) :
    l.reverse.find? p = some l[j] := by
  induction l generalizing j with
  | nil => simp at hj
  | cons x xs ih =>
      rw [List.reverse_cons, List.find?_append]
      cases j with
      | zero =>
          have hx : p x = true := hpj
          have hnone : xs.reverse.find? p = none := by
            rw [List.find?_eq_none]
            intro y hy
            rw [List.mem_reverse] at hy
            obtain ⟨i, hi, hEq⟩ := List.mem_iff_getElem.mp hy
            have hk : i + 1 < (x :: xs).length := by
              simpa using Nat.succ_lt_succ hi
            have := hlast (i + 1) hk (Nat.succ_pos i)
            rw [List.getElem_cons_succ] at this
            rw [← hEq]
            simp [this]
          rw [hnone, Option.none_or]
          simp [List.find?, hx]
      | succ i =>
          have hi : i < xs.length := by simpa using hj
          have hpi : p xs[i] = true := by
            have : (x :: xs)[i + 1] = xs[i] := List.getElem_cons_succ x xs i hj
            rw [← this]
            exact hpj
          have hl : ∀ k : Nat, (hk : k < xs.length) → i < k → p xs[k] = false := by
            intro k hk hik
            have hk1 : k + 1 < (x :: xs).length := by
              simpa using Nat.succ_lt_succ hk
            have := hlast (k + 1) hk1 (Nat.succ_lt_succ hik)
            rwa [List.getElem_cons_succ] at this
          rw [ih i hi hpi hl, Option.or_some]
          congr 1

/-- C4: for an `IndexedDataset` built over `records` with identity function
`idFn`, (1) the index maps each id to the indexed version of the LAST record
producing that id; (2) when `idFn` is injective on the records (the produced
ids are pairwise distinct), the index has exactly `len(records)` entries and
`index[idFn(rᵢ)].data = rᵢ` for every position `i`; (3) when positions
`i < j` collide and `j` is the last position producing that id, lookup
returns the indexed record of `rⱼ` — later wins. -/
theorem index_construction {ι : Type} [DecidableEq ι] (idFn : α → ι)
    (records : List α) (ds : IndexedDataset α δ ι)
    (hds : IndexedDataset.init none (some records) none none (some idFn)
      = some ds) :
    (∀ k : ι, ds.indexLookup k =
        Option.map (fun r => IndexedInput.mk r (idFn r) [])
          (records.reverse.find? (fun r => idFn r = k))) ∧
    ((records.map idFn).Nodup →
      ds.indexSize = records.length ∧
      ∀ i : Nat, (hi : i < records.length) →
        ds.indexLookup (idFn records[i])
          = some (IndexedInput.mk records[i] (idFn records[i]) [])) ∧
    (∀ i j : Nat, (hi : i < records.length) → (hj : j < records.length) →
      i < j → idFn records[i] = idFn records[j] →
      (∀ l : Nat, (hl : l < records.length) → j < l →
        idFn records[l] ≠ idFn records[i]) →
      ds.indexLookup (idFn records[i])
        = some (IndexedInput.mk records[j] (idFn records[j]) [])) := by
  have hex : (Dataset.init none (some records) none none
      (δ := δ)).examples = records := by
    show pyOrList (some records) [] = records
    exact pyOrList_some_over_nil records
  have hds2 : ds = IndexedDataset.mk
      (Dataset.init none (some records) none none) idFn
      (index_inputs idFn records) := by
    have hstep : IndexedDataset.init none (some records) none none
        (some idFn) = some (IndexedDataset.mk
          (Dataset.init none (some records) none none (δ := δ)) idFn
          (index_inputs idFn (Dataset.init none (some records) none none
            (δ := δ)).examples)) := rfl
    rw [hstep, hex] at hds
    exact (Option.some.inj hds).symm
  have hindexed : ds.indexed_examples = index_inputs idFn records := by
    rw [hds2]
  have hmain : ∀ k : ι, ds.indexLookup k =
      Option.map (fun r => IndexedInput.mk r (idFn r) [])
        (records.reverse.find? (fun r => idFn r = k)) := by
    intro k
    show ds.indexed_examples.reverse.find? (fun ex => ex.id = k) = _
    rw [hindexed]
    show ((records.map (fun r => IndexedInput.mk r (idFn r) [])).reverse).find?
        (fun ex => ex.id = k) = _
    rw [← List.map_reverse, List.find?_map]
    rfl
  refine ⟨hmain, ?_, ?_⟩
  · intro hnodup
    constructor
    · show ((ds.indexed_examples.map IndexedInput.id).dedup).length = _
      rw [hindexed]
      show (((records.map (fun r => IndexedInput.mk r (idFn r) [])).map
          IndexedInput.id).dedup).length = _
      rw [List.map_map]
      have hcomp : (records.map (IndexedInput.id ∘
          (fun r => IndexedInput.mk r (idFn r) ([] : List (String × String)))))
          = records.map idFn := rfl
      rw [hcomp, List.dedup_eq_self.mpr hnodup, List.length_map]
    · intro i hi
      rw [hmain]
      have hfind : records.reverse.find? (fun r => idFn r = idFn records[i])
          = some records[i] := by
        apply find_last_of_reverse records _ i hi
        · simp
        · intro k hk hik
          have hkm : k < (records.map idFn).length := by simpa using hk
          have him : i < (records.map idFn).length := by simpa using hi
          have hne : idFn records[k] ≠ idFn records[i] := by
            intro hEq
            have h1 : (records.map idFn)[k] = (records.map idFn)[i] := by
              rw [List.getElem_map, List.getElem_map]
              exact hEq
            have := (hnodup.getElem_inj_iff).mp h1
            omega
          simp [hne]
      rw [hfind]
      rfl
  · intro i j hi hj hij hid hlast
    rw [hmain]
    have hfind : records.reverse.find? (fun r => idFn r = idFn records[i])
        = some records[j] := by
      apply find_last_of_reverse records _ j hj
      · simp [hid.symm]
      · intro k hk hjk
        have := hlast k hk hjk
        simp [this]
    rw [hfind]
    rfl

/-- An identity function for the witness: the records modulo 7. -/
def widFn : Nat → Nat := fun n => n % 7

/-- The `IndexedDataset` the witness is about: exactly what
`IndexedDataset.init none (some [3, 10]) none none (some widFn)` builds. -/
def wIndexed : IndexedDataset Nat String Nat :=
  IndexedDataset.mk (Dataset.init none (some [3, 10]) none none) widFn
    (index_inputs widFn (Dataset.init none (some [3, 10]) none none
      (δ := String)).examples)

/-- Witness for `index_construction` at `records = [3, 10]`, `idFn = widFn`. -/
theorem index_construction_witness :
    (∀ k : Nat, wIndexed.indexLookup k =
        Option.map (fun r => IndexedInput.mk r (widFn r) [])
          (([3, 10].reverse).find? (fun r => widFn r = k))) ∧
    (([3, 10].map widFn).Nodup →
      wIndexed.indexSize = [3, 10].length ∧
      ∀ i : Nat, (hi : i < [3, 10].length) →
        wIndexed.indexLookup (widFn ([3, 10][i]))
          = some (IndexedInput.mk ([3, 10][i]) (widFn ([3, 10][i])) [])) ∧
    (∀ i j : Nat, (hi : i < [3, 10].length) → (hj : j < [3, 10].length) →
      i < j → widFn ([3, 10][i]) = widFn ([3, 10][j]) →
      (∀ l : Nat, (hl : l < [3, 10].length) → j < l →
        widFn ([3, 10][l]) ≠ widFn ([3, 10][i])) →
      wIndexed.indexLookup (widFn ([3, 10][i]))
        = some (IndexedInput.mk ([3, 10][j]) (widFn ([3, 10][j])) [])) :=
  index_construction widFn [3, 10] wIndexed rfl

/-! ### Association-list lemmas for the dict model -/

theorem alookup_mem {β : Type} {k : String} {v : β} :
    ∀ {l : List (String × β)}, alookup k l = some v → (k, v) ∈ l := by
  intro l
  induction l with
  | nil => intro h; simp [alookup] at h
  | cons kv tl ih =>
      intro h
      rw [alookup] at h
      by_cases hk : kv.1 = k
      · rw [if_pos hk] at h
        have : kv = (k, v) := by
          cases kv
          simp_all
        simp [this]
      · rw [if_neg hk] at h
        exact List.mem_cons_of_mem _ (ih h)

theorem alookup_eq_none_iff {β : Type} {k : String} :
    ∀ {l : List (String × β)}, alookup k l = none ↔ k ∉ l.map Prod.fst := by
  intro l
  induction l with
  | nil => simp [alookup]
  | cons kv tl ih =>
      by_cases hk : kv.1 = k
      · simp [alookup, hk]
      · rw [alookup, if_neg hk, List.map_cons, List.mem_cons, not_or]
        constructor
        · intro h
          exact ⟨fun hEq => hk hEq.symm, ih.mp h⟩
        · intro h
          exact ih.mpr h.2

theorem mem_alookup {β : Type} {k : String} {v : β} :
    ∀ {l : List (String × β)}, (k, v) ∈ l → (l.map Prod.fst).Nodup →
      alookup k l = some v := by
  intro l
  induction l with
  | nil => simp
  | cons kv tl ih =>
      intro hmem hnd
      rw [List.map_cons, List.nodup_cons] at hnd
      rcases List.mem_cons.mp hmem with hEq | htl
      · rw [← hEq, alookup, if_pos rfl]
      · have hk : kv.1 ≠ k := by
          intro hcontra
          have hkin : k ∈ tl.map Prod.fst := List.mem_map_of_mem Prod.fst htl
          exact (hcontra ▸ hnd.1) hkin
        rw [alookup, if_neg hk]
        exact ih htl hnd.2

theorem alookup_append {β : Type} (k : String) (l1 l2 : List (String × β)) :
    alookup k (l1 ++ l2) = (alookup k l1).or (alookup k l2) := by
  induction l1 with
  | nil => simp [alookup, Option.none_or]
  | cons kv tl ih =>
      by_cases hk : kv.1 = k
      · simp [alookup, hk, Option.or_some]
      · simp [alookup, hk, ih]

theorem alookup_filter_true {β : Type} (k : String)
    (p : String × β → Bool) :
    ∀ (l : List (String × β)), (∀ kv : String × β, kv.1 = k → p kv = true) →
      alookup k (l.filter p) = alookup k l := by
  intro l
  induction l with
  | nil => simp
  | cons kv tl ih =>
      intro h
      by_cases hk : kv.1 = k
      · rw [List.filter_cons, h kv hk]
        simp [alookup, hk, ih h]
      · rw [List.filter_cons]
        cases hp : p kv with
        | true => simp [alookup, hk, ih h]
        | false => simp [alookup, hk, ih h]

theorem alookup_map_update {β : Type} (k : String)
    (u : List (String × β)) :
    ∀ (d : List (String × β)),
      alookup k (d.map (fun kv =>
        match alookup kv.1 u with
        | some v => (kv.1, v)
        | none => kv)) =
      Option.map (fun v =>
        match alookup k u with
        | some w => w
        | none => v) (alookup k d) := by
  intro d
  induction d with
  | nil => simp [alookup]
  | cons kv tl ih =>
      by_cases hk : kv.1 = k
      · subst hk
        cases hu : alookup kv.1 u <;> simp [alookup, hu, ih]
      · cases hu : alookup kv.1 u <;> simp [alookup, hk, hu, ih]

/-- The dict-update lookup law: a key present in `u` takes `u`'s value,
otherwise `d`'s value survives. -/
theorem alookup_dictUpdate {β : Type} (k : String)
    (d u : List (String × β)) :
    alookup k (dictUpdate d u) = (alookup k u).or (alookup k d) := by
  rw [dictUpdate, alookup_append, alookup_map_update]
  cases hd : alookup k d with
  | none =>
      have hfilter : alookup k (u.filter
          (fun kv => (alookup kv.1 d).isNone)) = alookup k u := by
        apply alookup_filter_true
        intro kv hkv
        rw [hkv, hd]
        rfl
      rw [hfilter]
      cases alookup k u <;> simp
  | some v =>
      cases hu : alookup k u <;> simp

theorem nodup_keys_filter {β : Type} {l : List (String × β)}
    (p : String × β → Bool) (h : (l.map Prod.fst).Nodup) :
    ((l.filter p).map Prod.fst).Nodup :=
  ((List.filter_sublist l).map Prod.fst).nodup h

theorem nodup_keys_dictUpdate {β : Type} {d u : List (String × β)}
    (hd : (d.map Prod.fst).Nodup) (hu : (u.map Prod.fst).Nodup) :
    ((dictUpdate d u).map Prod.fst).Nodup := by
  rw [dictUpdate, List.map_append, List.nodup_append]
  have hmap : ((d.map (fun kv =>
      match alookup kv.1 u with
      | some v => (kv.1, v)
      | none => kv)).map Prod.fst) = d.map Prod.fst := by
    rw [List.map_map]
    apply List.map_congr_left
    intro kv _
    simp only [Function.comp_apply]
    cases alookup kv.1 u <;> rfl
  refine ⟨hmap ▸ hd, nodup_keys_filter _ hu, ?_⟩
  intro x hx hy
  rw [hmap] at hx
  obtain ⟨kv, hkv, hfst⟩ := List.mem_map.mp hy
  obtain ⟨hkvu, hp⟩ := List.mem_filter.mp hkv
  have hnone : alookup kv.1 d = none := by
    cases hval : alookup kv.1 d
      <;> simp_all
  rw [hfst] at hnone
  exact (alookup_eq_none_iff.mp hnone) hx

/-! ### Lemmas about NoneDataset.spec -/

theorem has_conflicting_eq_false {ρ : Type} [DecidableEq ρ]
    {c u : List (String × FieldDescr ρ)} :
    has_conflicting_keys c u = false ↔
      ∀ kv ∈ c, ∀ w, alookup kv.1 u = some w → w = kv.2 := by
  rw [Bool.eq_false_iff, Ne, has_conflicting_keys, List.any_eq_true]
  push_neg
  constructor
  · intro h kv hkv w hw
    have := h kv hkv
    rw [hw] at this
    simpa using this
  · intro h kv hkv
    cases hw : alookup kv.1 u with
    | none => simp
    | some w => simpa using h kv hkv w hw

theorem spec_foldl_none {ρ : Type} [DecidableEq ρ]
    (models : List (String × ModelSpec ρ)) :
    models.foldl (fun acc nm => specStep acc nm.2) none = none := by
  induction models with
  | nil => rfl
  | cons nm ms ih => rw [List.foldl_cons]; exact ih

/-- If the spec loop runs to completion, every binding of the starting
accumulator and every required-input binding of every processed model
survives into the result unchanged (the no-conflict check makes each
`update` value-preserving on present keys). -/
theorem spec_foldl_sound {ρ : Type} [DecidableEq ρ] :
    ∀ (models : List (String × ModelSpec ρ))
      (c s : List (String × FieldDescr ρ)),
    models.foldl (fun acc nm => specStep acc nm.2) (some c) = some s →
    (∀ k v, alookup k c = some v → alookup k s = some v) ∧
    (∀ nm ∈ models, ∀ k v,
      alookup k (requiredInputs nm.2.input) = some v →
      alookup k s = some v) := by
  intro models
  induction models with
  | nil =>
      intro c s h
      have hcs : c = s := Option.some.inj h
      subst hcs
      exact ⟨fun k v hv => hv, by simp⟩
  | cons nm ms ih =>
      intro c s h
      rw [List.foldl_cons] at h
      cases hconf : has_conflicting_keys c (requiredInputs nm.2.input) with
      | true =>
          rw [specStep, if_pos hconf] at h
          rw [spec_foldl_none] at h
          exact absurd h (by simp)
      | false =>
          rw [specStep, if_neg (by simp [hconf])] at h
          obtain ⟨hmono, hrest⟩ := ih (dictUpdate c (requiredInputs nm.2.input)) s h
          have hstep : ∀ k v, alookup k c = some v →
              alookup k (dictUpdate c (requiredInputs nm.2.input)) = some v := by
            intro k v hv
            rw [alookup_dictUpdate]
            cases hr : alookup k (requiredInputs nm.2.input) with
            | none => simpa [Option.none_or] using hv
            | some w =>
                have hw : w = v :=
                  has_conflicting_eq_false.mp hconf (k, v) (alookup_mem hv) w hr
                rw [Option.or_some, hw]
          refine ⟨fun k v hv => hmono k v (hstep k v hv), ?_⟩
          intro nm1 hnm1 k v hv
          rcases List.mem_cons.mp hnm1 with hEq | hms
          · subst hEq
            apply hmono
            rw [alookup_dictUpdate, hv, Option.or_some]
          · exact hrest nm1 hms k v hv

/-! ### C5 — schema merge conflict detection -/

/-- The producer used by the schema-merge examples: one required field
named text. -/
def prodA : ModelSpec String :=
  ModelSpec.mk [("text", FieldDescr.mk true "textDescrOfA")]

/-- A producer defining the same field name text with a DIFFERENT
descriptor that is not required. -/
def prodBconflict : ModelSpec String :=
  ModelSpec.mk [("text", FieldDescr.mk false "textDescrOfB")]

/-- A producer defining text with a different but required descriptor. -/
def prodCconflict : ModelSpec String :=
  ModelSpec.mk [("text", FieldDescr.mk true "textDescrOfC")]

/-- C5, counterexample: two producers define the same field name (text)
with differing descriptors, yet `NoneDataset.spec` succeeds — the second
descriptor is not required, so it is filtered out before the conflict
check ever sees it. The claim that any same-name differing-descriptor pair
makes `Schema()` fail is therefore false. -/
theorem spec_nonrequired_conflict_cex :
    (alookup "text" prodA.input).isSome = true ∧
    (alookup "text" prodBconflict.input).isSome = true ∧
    alookup "text" prodA.input ≠ alookup "text" prodBconflict.input ∧
    NoneDataset.spec [("A", prodA), ("B", prodBconflict)] ≠ none := by
  decide

/-- C5, amended: if two producers define the same field name among their
REQUIRED input fields with differing descriptors, `NoneDataset.spec` hits
the `has_conflicting_keys` assertion and fails (no schema is returned),
whatever the other producers are. -/
theorem spec_conflict_fails {ρ : Type} [DecidableEq ρ]
    (models : List (String × ModelSpec ρ))
    (h : ∃ nm1 ∈ models, ∃ nm2 ∈ models, ∃ k v1 v2,
      alookup k (requiredInputs nm1.2.input) = some v1 ∧
      alookup k (requiredInputs nm2.2.input) = some v2 ∧ v1 ≠ v2) :
    NoneDataset.spec models = none := by
  obtain ⟨nm1, h1, nm2, h2, k, v1, v2, ha, hb, hne⟩ := h
  cases hs : NoneDataset.spec models with
  | none => rfl
  | some s =>
      obtain ⟨-, hall⟩ := spec_foldl_sound models [] s hs
      have e1 := hall nm1 h1 k v1 ha
      have e2 := hall nm2 h2 k v2 hb
      rw [e1] at e2
      exact absurd (Option.some.inj e2) hne

/-- Witness for `spec_conflict_fails`: producers `prodA` and `prodCconflict`
both require a text field with differing descriptors. -/
theorem spec_conflict_fails_witness :
    NoneDataset.spec [("A", prodA), ("C", prodCconflict)] = none :=
  spec_conflict_fails [("A", prodA), ("C", prodCconflict)]
    ⟨("A", prodA), by simp, ("C", prodCconflict), by simp, "text",
      FieldDescr.mk true "textDescrOfA", FieldDescr.mk true "textDescrOfC",
      rfl, rfl, by decide⟩

/-! ### C6 — schema merge result -/

/-- When the required inputs of the models are pairwise compatible (and
compatible with the starting accumulator), the spec loop succeeds and the
result binds exactly the keys of the accumulator and of every model's
required inputs, each to its unique descriptor. -/
theorem spec_foldl_builds {ρ : Type} [DecidableEq ρ] :
    ∀ (models : List (String × ModelSpec ρ))
      (c : List (String × FieldDescr ρ)),
    (c.map Prod.fst).Nodup →
    (∀ nm ∈ models, (nm.2.input.map Prod.fst).Nodup) →
    (∀ nm ∈ models, ∀ k v w, alookup k c = some v →
      alookup k (requiredInputs nm.2.input) = some w → w = v) →
    (∀ nm1 ∈ models, ∀ nm2 ∈ models, ∀ k v1 v2,
      alookup k (requiredInputs nm1.2.input) = some v1 →
      alookup k (requiredInputs nm2.2.input) = some v2 → v1 = v2) →
    ∃ s, models.foldl (fun acc nm => specStep acc nm.2) (some c) = some s ∧
      (s.map Prod.fst).Nodup ∧
      (∀ k v, alookup k s = some v ↔
        (alookup k c = some v ∨
          ∃ nm ∈ models, alookup k (requiredInputs nm.2.input) = some v)) := by
  intro models
  induction models with
  | nil =>
      intro c hcnd _ _ _
      refine ⟨c, rfl, hcnd, fun k v => ?_⟩
      simp
  | cons nm ms ih =>
      intro c hcnd hnd hcm hmm
      have hreqnd : ((requiredInputs nm.2.input).map Prod.fst).Nodup :=
        nodup_keys_filter _ (hnd nm (List.mem_cons_self nm ms))
      have hconf : has_conflicting_keys c (requiredInputs nm.2.input) = false := by
        rw [has_conflicting_eq_false]
        intro kv hkv w hw
        exact hcm nm (List.mem_cons_self nm ms) kv.1 kv.2 w
          (mem_alookup hkv hcnd) hw
      have hstepEq : specStep (some c) nm.2
          = some (dictUpdate c (requiredInputs nm.2.input)) := by
        rw [specStep, if_neg (by simp [hconf])]
      have hcnd2 : ((dictUpdate c (requiredInputs nm.2.input)).map Prod.fst).Nodup :=
        nodup_keys_dictUpdate hcnd hreqnd
      have hlook : ∀ k v,
          alookup k (dictUpdate c (requiredInputs nm.2.input)) = some v ↔
          (alookup k c = some v ∨
            alookup k (requiredInputs nm.2.input) = some v) := by
        intro k v
        rw [alookup_dictUpdate]
        cases hr : alookup k (requiredInputs nm.2.input) with
        | none => simp [Option.none_or]
        | some w =>
            rw [Option.or_some]
            constructor
            · intro hwv
              exact Or.inr hwv
            · rintro (hc | hreq)
              · have := hcm nm (List.mem_cons_self nm ms) k v w hc hr
                rw [this]
              · exact hreq
      have hcm2 : ∀ nm1 ∈ ms, ∀ k v w,
          alookup k (dictUpdate c (requiredInputs nm.2.input)) = some v →
          alookup k (requiredInputs nm1.2.input) = some w → w = v := by
        intro nm1 hnm1 k v w hv hw
        rcases (hlook k v).mp hv with hc | hreq
        · exact hcm nm1 (List.mem_cons_of_mem nm hnm1) k v w hc hw
        · exact hmm nm1 (List.mem_cons_of_mem nm hnm1) nm
            (List.mem_cons_self nm ms) k w v hw hreq
      obtain ⟨s, hfold, hnds, hchar⟩ :=
        ih (dictUpdate c (requiredInputs nm.2.input)) hcnd2
          (fun nm1 h1 => hnd nm1 (List.mem_cons_of_mem nm h1))
          hcm2
          (fun nm1 h1 nm2 h2 => hmm nm1 (List.mem_cons_of_mem nm h1) nm2
            (List.mem_cons_of_mem nm h2))
      refine ⟨s, ?_, hnds, ?_⟩
      · rw [List.foldl_cons, hstepEq]
        exact hfold
      · intro k v
        rw [hchar k v, hlook k v]
        constructor
        · rintro ((hc | hreq) | ⟨nm1, h1, hv⟩)
          · exact Or.inl hc
          · exact Or.inr ⟨nm, List.mem_cons_self nm ms, hreq⟩
          · exact Or.inr ⟨nm1, List.mem_cons_of_mem nm h1, hv⟩
        · rintro (hc | ⟨nm1, h1, hv⟩)
          · exact Or.inl (Or.inl hc)
          · rcases List.mem_cons.mp h1 with hEq | hms
            · subst hEq
              exact Or.inl (Or.inr hv)
            · exact Or.inr ⟨nm1, hms, hv⟩

/-- C6: when no two producers define the same field name with conflicting
descriptors (and each producer's input mapping has distinct field names, a
Python dict invariant), `NoneDataset.spec` succeeds and the returned schema
binds a field name to a descriptor exactly when some producer declares that
field as a REQUIRED input with that descriptor: non-required fields are
excluded, disjoint producers merge to the union, and identical shared
descriptors merge without error. -/
theorem spec_merge_union {ρ : Type} [DecidableEq ρ]
    (models : List (String × ModelSpec ρ))
    (hnd : ∀ nm ∈ models, (nm.2.input.map Prod.fst).Nodup)
    (hcompat : ∀ nm1 ∈ models, ∀ nm2 ∈ models, ∀ kv ∈ nm1.2.input,
      ∀ kw ∈ nm2.2.input, kv.1 = kw.1 → kv.2 = kw.2) :
    ∃ s, NoneDataset.spec models = some s ∧
      (s.map Prod.fst).Nodup ∧
      ∀ k v, alookup k s = some v ↔
        ∃ nm ∈ models, alookup k (requiredInputs nm.2.input) = some v := by
  have hmm : ∀ nm1 ∈ models, ∀ nm2 ∈ models, ∀ k v1 v2,
      alookup k (requiredInputs nm1.2.input) = some v1 →
      alookup k (requiredInputs nm2.2.input) = some v2 → v1 = v2 := by
    intro nm1 h1 nm2 h2 k v1 v2 ha hb
    have hv1 : (k, v1) ∈ nm1.2.input :=
      (List.mem_filter.mp (alookup_mem ha)).1
    have hv2 : (k, v2) ∈ nm2.2.input :=
      (List.mem_filter.mp (alookup_mem hb)).1
    exact hcompat nm1 h1 nm2 h2 (k, v1) hv1 (k, v2) hv2 rfl
  obtain ⟨s, hfold, hnds, hchar⟩ := spec_foldl_builds models []
    (by simp) hnd (fun nm _ k v w hc => by simp [alookup] at hc) hmm
  refine ⟨s, hfold, hnds, fun k v => ?_⟩
  rw [hchar k v]
  constructor
  · rintro (hc | h)
    · simp [alookup] at hc
    · exact h
  · intro h
    exact Or.inr h

/-- The second producer of the spec's end-to-end example: one non-required
field named label. -/
def prodB : ModelSpec String :=
  ModelSpec.mk [("label", FieldDescr.mk false "labelDescrOfB")]

/-- Witness for `spec_merge_union` on the spec's end-to-end example: producers
A (required text) and B (non-required label). -/
theorem spec_merge_union_witness :
    ∃ s, NoneDataset.spec [("A", prodA), ("B", prodB)] = some s ∧
      (s.map Prod.fst).Nodup ∧
      ∀ k v, alookup k s = some v ↔
        ∃ nm ∈ [("A", prodA), ("B", prodB)],
          alookup k (requiredInputs nm.2.input) = some v :=
  spec_merge_union [("A", prodA), ("B", prodB)] (by decide) (by decide)

end LitDataset
